import Mathlib

set_option maxRecDepth 100000

/-!
Shallow embedding of media_bundler/versioning.py and proofs about it.

The module keeps a process-wide cache of a mapping from bundle name to
versioned filename, loads it by executing a generated Python file, writes it
back as a generated file, and updates bundles by computing a version token
(newest source mtime, or a hash of the merged output file) and copying the
merged output file to a versioned name.

Python dicts are modelled as insertion-ordered association lists, machine
integers and bytes as Nat, timestamps as Rat, exceptions as Except, and the
filesystem as explicit function arguments.
-/

namespace MediaBundler

/-- Exceptions that the embedded Python code can raise. -/
inductive PyErr where
  | ioError
  | keyError
  | valueError
  | unboundLocal
  deriving DecidableEq

/-- Decidable equality of results, used to evaluate the embedding on concrete
inputs. -/
instance {ε α : Type} [DecidableEq ε] [DecidableEq α] : DecidableEq (Except ε α) := fun x y =>
  match x, y with
  | .ok a, .ok b =>
    if h : a = b then isTrue (by rw [h]) else isFalse (fun hh => h (Except.ok.inj hh))
  | .error a, .error b =>
    if h : a = b then isTrue (by rw [h]) else isFalse (fun hh => h (Except.error.inj hh))
  | .ok _, .error _ => isFalse (fun hh => Except.noConfusion hh)
  | .error _, .ok _ => isFalse (fun hh => Except.noConfusion hh)

/-- A Python dict from bundle name to versioned filename, modelled as an
insertion-ordered association list. -/
abbrev VersionMap := List (String × String)

/-- Embeds item assignment on a Python dict: an existing key keeps its position
and gets the new value, a new key is appended at the end. -/
def dictSet (d : VersionMap) (k v : String) : VersionMap :=
  if d.any (fun p => p.1 == k) then
    d.map (fun p => if p.1 = k then (k, v) else p)
  else
    d ++ [(k, v)]

/-- Embeds dict.update: every pair of the second dict is assigned into the
first, left to right. -/
def dictUpdate (d updates : VersionMap) : VersionMap :=
  updates.foldl (fun acc p => dictSet acc p.1 p.2) d

/-- Result of reading and executing the persisted versions file with execfile:
absent models an IOError on open, and parsed vars models a successful
execution whose namespace either binds BUNDLE_VERSIONS to a mapping or leaves
it unbound. -/
inductive VersionFileContent where
  | absent
  | parsed (bundleVersions : Option VersionMap)

/-- Embeds update_versions: execfile the configured file; an IOError makes the
cache the empty mapping, otherwise the namespace entry BUNDLE_VERSIONS is
looked up and a missing key raises KeyError to the caller. Returns the new
value of the global cache _bundle_versions. -/
def update_versions : VersionFileContent → Except PyErr VersionMap
  | .absent => .ok []
  | .parsed none => .error .keyError
  | .parsed (some m) => .ok m

/-- Embeds get_bundle_versions: configured is the truthiness of the setting
BUNDLE_VERSION_FILE and cache is the global _bundle_versions, none modelling
the Python None. Returns the mapping returned to the caller together with the
new value of the cache. -/
def get_bundle_versions (configured : Bool) (cache : Option VersionMap)
    (file : VersionFileContent) : Except PyErr (VersionMap × Option VersionMap) :=
  let cache := if configured then cache else some []
  match cache with
  | some m => .ok (m, some m)
  | none =>
    match update_versions file with
    | .ok m => .ok (m, some m)
    | .error e => .error e

/-- The apostrophe character, named so that source lines stay plain. -/
def sq : Char := Char.ofNat 39

/-- The closing brace character, named so that source lines stay plain. -/
def rb : Char := Char.ofNat 125

/-- Python repr of a string without quote, backslash or control characters:
the text wrapped in single quotes. The percent-r format in write_versions
produces exactly this for such strings. -/
def pyReprChars (s : String) : List Char :=
  sq :: s.data ++ [sq]

/-- One line of the generated BUNDLE_VERSIONS literal: four spaces, repr of
the name, colon, space, repr of the version, trailing comma. -/
def entryLineChars (p : String × String) : List Char :=
  [' ', ' ', ' ', ' '] ++ pyReprChars p.1 ++ [':', ' '] ++ pyReprChars p.2 ++ [',']

/-- Embeds the newline join that builds versions_str in write_versions. -/
def joinLines : List (List Char) → List Char
  | [] => []
  | [l] => l
  | l :: l2 :: ls => l ++ '\n' :: joinLines (l2 :: ls)

/-- Text of the generated file before the entries, up to and including the
newline after the opening brace of BUNDLE_VERSIONS; matches the format string
in write_versions character for character. -/
def headerChars : List Char :=
  ("#!/usr/bin/env python\n\n\"\"\"\nMedia bundle versions.\n\nDO NOT EDIT!  Module generated by ").data
    ++ sq :: ("manage.py bundle_media").data ++ sq :: (".\n\"\"\"\n\nBUNDLE_VERSIONS = \x7b\n").data

/-- Full text written by write_versions when called with the given mapping:
header, the rendered entries of that mapping, newline, closing brace, newline. -/
def fileTextChars (versions : VersionMap) : List Char :=
  headerChars ++ joinLines (versions.map entryLineChars) ++ ('\n' :: rb :: ['\n'])

/-- Embeds write_versions: the global cache is rebound to a copy of itself
merged with the argument, so dicts held by other code are not mutated, and the
file receives the rendered entries of the argument mapping only. Returns the
new cache and the text written to BUNDLE_VERSION_FILE. -/
def write_versions (cache : VersionMap) (versions : VersionMap) : VersionMap × String :=
  (dictUpdate cache versions, String.mk (fileTextChars versions))

/-- Splits a character list on a separator character; fields are the maximal
runs between separators, so the result is always nonempty. -/
def splitOnChar (c : Char) : List Char → List (List Char)
  | [] => [[]]
  | x :: xs =>
    if x = c then [] :: splitOnChar c xs
    else
      match splitOnChar c xs with
      | [] => [[x]]
      | r :: rs => (x :: r) :: rs

/-- Drops the first list from the front of the second, or fails when it is not
a prefix. -/
def stripPre : List Char → List Char → Option (List Char)
  | [], l => some l
  | _ :: _, [] => none
  | p :: ps, c :: cs => if p = c then stripPre ps cs else none

/-- Scans up to a closing quote, returning the scanned text and the rest. -/
def scanQuote : List Char → Option (List Char × List Char)
  | [] => none
  | c :: rest =>
    if c = sq then some ([], rest)
    else
      match scanQuote rest with
      | none => none
      | some (s, r) => some (c :: s, r)

/-- Parses a single-quoted string literal at the front of the input. -/
def parseQuoted : List Char → Option (List Char × List Char)
  | [] => none
  | c :: rest => if c = sq then scanQuote rest else none

/-- Parses one generated entry line back into its name and version. -/
def parseEntryLine (l : List Char) : Option (String × String) :=
  match l with
  | ' ' :: ' ' :: ' ' :: ' ' :: rest =>
    match parseQuoted rest with
    | some (key, ':' :: ' ' :: rest2) =>
      match parseQuoted rest2 with
      | some (val, [',']) => some (String.mk key, String.mk val)
      | _ => none
    | _ => none
  | _ => none

/-- Parses the lines after the header of a generated file: entry lines until
the closing brace line, blank lines skipped as Python skips them inside a dict
literal, and exactly one empty line after the closing brace. -/
def parseEntries : List (List Char) → Option VersionMap
  | [] => none
  | l :: ls =>
    if l = [rb] then
      if ls = [[]] then some [] else none
    else if l = [] then parseEntries ls
    else
      match parseEntryLine l, parseEntries ls with
      | some e, some m => some (e :: m)
      | _, _ => none

/-- Models execfile on a machine-generated versions file: recovers the
BUNDLE_VERSIONS mapping from the exact textual shape produced by
write_versions, and yields none on text not of that shape. -/
def execGeneratedFile (text : String) : Option VersionMap :=
  match stripPre headerChars text.data with
  | none => none
  | some rest => parseEntries (splitOnChar '\n' rest)

/-- External bundle collaborator: a name, the merged output path returned by
get_bundle_path, and the source paths returned by get_paths. -/
structure Bundle where
  name : String
  bundle_path : String
  paths : List String

/-- Embeds os.path.split for POSIX paths: the tail is everything after the
last slash, and the head is the part before it with trailing slashes stripped
unless it consists only of slashes. -/
def splitPath (p : String) : String × String :=
  let rev := p.data.reverse
  let tailRev := rev.takeWhile (fun c => c != '/')
  let headRev := rev.drop tailRev.length
  let headRev := if headRev.all (fun c => c == '/') then headRev else headRev.dropWhile (fun c => c == '/')
  (String.mk headRev.reverse, String.mk tailRev.reverse)

/-- Embeds the two-argument os.path.join for POSIX paths. -/
def joinPath (a b : String) : String :=
  if b.data.head? = some '/' then b
  else if a.data = [] ∨ a.data.getLast? = some '/' then String.mk (a.data ++ b.data)
  else String.mk (a.data ++ '/' :: b.data)

/-- Embeds str.rpartition with a dot separator, returning the parts before and
after the last dot; update_bundle_version only uses it on a basename that
contains a dot. -/
def rpartitionDot (s : String) : String × String :=
  let rev := s.data.reverse
  let extRev := rev.takeWhile (fun c => c != '.')
  let nameRev := rev.drop (extRev.length + 1)
  (String.mk nameRev.reverse, String.mk extRev.reverse)

/-- Embeds VersioningBase.update_bundle_version. The strategy is abstracted by
its get_version result and origExists says whether shutil.copy finds the
merged output file. Returns the final value of self.versions together with
either the versioned path on success or the exception raised:
UnboundLocalError in the branch for a basename without a dot, where the
source increments the unassigned variable versioned_basename, and IOError
when the copy fails; the copy comes after the mapping assignment, so a failed
copy leaves the mapping already updated. -/
def update_bundle_version (get_version : Bundle → Except PyErr String)
    (versions : VersionMap) (bundle : Bundle) (origExists : Bool) :
    VersionMap × Except PyErr String :=
  match get_version bundle with
  | .error e => (versions, .error e)
  | .ok version =>
    let dir := (splitPath bundle.bundle_path).1
    let basename := (splitPath bundle.bundle_path).2
    if '.' ∈ basename.data then
      let name := (rpartitionDot basename).1
      let extension := (rpartitionDot basename).2
      let versioned_basename := name ++ "." ++ version ++ "." ++ extension
      let versions2 := dictSet versions bundle.name versioned_basename
      let versioned_path := joinPath dir versioned_basename
      if origExists then (versions2, .ok versioned_path)
      else (versions2, .error .ioError)
    else
      (versions, .error .unboundLocal)

/-- Embeds the Python int truncation toward zero of a rational timestamp. -/
def pyInt (q : Rat) : Int :=
  if q < 0 then -((-q).floor) else q.floor

/-- Embeds the Python max builtin on a list of integers; it raises ValueError
on an empty sequence. -/
def pyMax : List Int → Except PyErr Int
  | [] => .error .valueError
  | x :: xs => .ok (xs.foldl max x)

/-- Embeds MtimeVersioning.get_version: st_mtime gives the stat timestamp of
each path, and the result renders the maximum truncated timestamp over the
source paths of the bundle as a decimal string. -/
def mtime_get_version (st_mtime : String → Rat) (bundle : Bundle) : Except PyErr String :=
  match pyMax (bundle.paths.map (fun f => pyInt (st_mtime f))) with
  | .ok m => .ok (toString m)
  | .error e => .error e

/-- Worker for chunking: keeps the reversed current chunk and the remaining
capacity of that chunk, emitting a chunk whenever the capacity runs out. -/
def chunksGo (n : Nat) : List Nat → List Nat → Nat → List (List Nat)
  | [], accRev, _ => if accRev = [] then [] else [accRev.reverse]
  | x :: xs, accRev, k =>
    if k ≤ 1 then (x :: accRev).reverse :: chunksGo n xs [] n
    else chunksGo n xs (x :: accRev) (k - 1)

/-- The chunk sequence produced by the successive f.read(chunk_size) calls in
get_hash: chunks of size n with the last possibly shorter; a chunk size of
zero reads the empty string at once and yields nothing. -/
def chunkList (n : Nat) (l : List Nat) : List (List Nat) :=
  if n = 0 then [] else chunksGo n l [] n

/-- Embeds HashVersioningBase.get_hash: a hashlib object accumulates the
chunks it is updated with, so the digest is the hash of the concatenation of
the chunks read from the file. -/
def get_hash (hash_method : List Nat → String) (content : List Nat) (chunk_size : Nat) : String :=
  hash_method ((chunkList chunk_size content).flatten)

/-- Embeds HashVersioningBase.get_version: opens the merged bundle output file
and hashes its content with the default chunk size of 2 to the 14, 16384. -/
def hash_get_version (hash_method : List Nat → String) (fs : String → Option (List Nat))
    (bundle : Bundle) : Except PyErr String :=
  match fs bundle.bundle_path with
  | none => .error .ioError
  | some content => .ok (get_hash hash_method content (2 ^ 14))

/-- Reduction of a value to a 32 bit word. -/
def w32 (n : Nat) : Nat := n % 4294967296

/-- Left rotation of a 32 bit word by s places. -/
def rotl32 (x s : Nat) : Nat := w32 (x * 2 ^ s) + x / 2 ^ (32 - s)

/-- The 64 sine-derived constants of MD5. -/
def md5K : List Nat :=
  [0xd76aa478, 0xe8c7b756, 0x242070db, 0xc1bdceee,
   0xf57c0faf, 0x4787c62a, 0xa8304613, 0xfd469501,
   0x698098d8, 0x8b44f7af, 0xffff5bb1, 0x895cd7be,
   0x6b901122, 0xfd987193, 0xa679438e, 0x49b40821,
   0xf61e2562, 0xc040b340, 0x265e5a51, 0xe9b6c7aa,
   0xd62f105d, 0x02441453, 0xd8a1e681, 0xe7d3fbc8,
   0x21e1cde6, 0xc33707d6, 0xf4d50d87, 0x455a14ed,
   0xa9e3e905, 0xfcefa3f8, 0x676f02d9, 0x8d2a4c8a,
   0xfffa3942, 0x8771f681, 0x6d9d6122, 0xfde5380c,
   0xa4beea44, 0x4bdecfa9, 0xf6bb4b60, 0xbebfbc70,
   0x289b7ec6, 0xeaa127fa, 0xd4ef3085, 0x04881d05,
   0xd9d4d039, 0xe6db99e5, 0x1fa27cf8, 0xc4ac5665,
   0xf4292244, 0x432aff97, 0xab9423a7, 0xfc93a039,
   0x655b59c3, 0x8f0ccc92, 0xffeff47d, 0x85845dd1,
   0x6fa87e4f, 0xfe2ce6e0, 0xa3014314, 0x4e0811a1,
   0xf7537e82, 0xbd3af235, 0x2ad7d2bb, 0xeb86d391]

/-- The MD5 per-step rotation amounts. -/
def md5S : List Nat :=
  [7, 12, 17, 22, 7, 12, 17, 22, 7, 12, 17, 22, 7, 12, 17, 22,
   5, 9, 14, 20, 5, 9, 14, 20, 5, 9, 14, 20, 5, 9, 14, 20,
   4, 11, 16, 23, 4, 11, 16, 23, 4, 11, 16, 23, 4, 11, 16, 23,
   6, 10, 15, 21, 6, 10, 15, 21, 6, 10, 15, 21, 6, 10, 15, 21]

/-- Round function value and message word index of MD5 step i. -/
def md5FG (i b c d : Nat) : Nat × Nat :=
  if i < 16 then ((b &&& c) ||| ((b ^^^ 4294967295) &&& d), i)
  else if i < 32 then ((d &&& b) ||| ((d ^^^ 4294967295) &&& c), (5 * i + 1) % 16)
  else if i < 48 then (b ^^^ c ^^^ d, (3 * i + 5) % 16)
  else (c ^^^ (b ||| (d ^^^ 4294967295)), (7 * i) % 16)

/-- Running state of the MD5 compression function. -/
structure MD5State where
  a : Nat
  b : Nat
  c : Nat
  d : Nat

/-- The MD5 initialization vector. -/
def md5Init : MD5State := ⟨0x67452301, 0xefcdab89, 0x98badcfe, 0x10325476⟩

/-- One of the 64 MD5 steps on a block with message words M. -/
def md5Step (M : List Nat) (st : MD5State) (i : Nat) : MD5State :=
  let fg := md5FG i st.b st.c st.d
  let f2 := w32 (fg.1 + st.a + md5K.getD i 0 + M.getD fg.2 0)
  ⟨st.d, w32 (st.b + rotl32 f2 (md5S.getD i 0)), st.b, st.c⟩

/-- Little-endian decoding of four bytes into a word. -/
def leWord : List Nat → Nat
  | [b0, b1, b2, b3] => b0 + 256 * b1 + 65536 * b2 + 16777216 * b3
  | _ => 0

/-- MD5 compression of one 64 byte block. -/
def md5Block (st : MD5State) (block : List Nat) : MD5State :=
  let M := (chunkList 4 block).map leWord
  let r := (List.range 64).foldl (md5Step M) st
  ⟨w32 (st.a + r.a), w32 (st.b + r.b), w32 (st.c + r.c), w32 (st.d + r.d)⟩

/-- MD5 padding: a 128 byte, zeros to 56 mod 64, then the bit length in eight
little-endian bytes. -/
def md5Pad (msg : List Nat) : List Nat :=
  let zeros := (119 - msg.length % 64) % 64
  msg ++ 128 :: List.replicate zeros 0
    ++ (List.range 8).map (fun j => 8 * msg.length / 2 ^ (8 * j) % 256)

/-- Little-endian bytes of a 32 bit word. -/
def leBytes4 (n : Nat) : List Nat :=
  [n % 256, n / 256 % 256, n / 65536 % 256, n / 16777216 % 256]

/-- A lowercase hexadecimal digit. -/
def hexDigit (n : Nat) : Char :=
  if n < 10 then Char.ofNat (48 + n) else Char.ofNat (87 + n)

/-- Lowercase hex digest of the MD5 of a byte list; models the hashlib md5
object passed to HashVersioningBase by Md5Versioning. -/
def md5hex (msg : List Nat) : String :=
  let fin := (chunkList 64 (md5Pad msg)).foldl md5Block md5Init
  String.mk (((leBytes4 fin.a ++ leBytes4 fin.b ++ leBytes4 fin.c ++ leBytes4 fin.d).map
    (fun b => [hexDigit (b / 16), hexDigit (b % 16)])).flatten)

/-- Embeds Md5Versioning.get_version: HashVersioningBase with the hashlib md5
constructor. -/
def md5_get_version (fs : String → Option (List Nat)) (bundle : Bundle) : Except PyErr String :=
  hash_get_version md5hex fs bundle

/-- ASCII bytes of a string, used for concrete file contents. -/
def strBytes (s : String) : List Nat := s.data.map Char.toNat

/-- A string whose Python repr is the single-quoted text itself: no quote and
no newline characters; keys and versions written by the bundler are of this
shape. -/
abbrev simpleStr (s : String) : Prop := sq ∉ s.data ∧ '\n' ∉ s.data

/-- A mapping entry made of two simple strings. -/
abbrev simpleEntry (p : String × String) : Prop := simpleStr p.1 ∧ simpleStr p.2

/-- Stripping a list from the front of itself followed by a rest yields the
rest. -/
theorem stripPre_append (p r : List Char) : stripPre p (p ++ r) = some r := by
  induction p with
  | nil => rfl
  | cons c cs ih => simp [stripPre, ih]

/-- Scanning a quote-free text followed by a closing quote returns the text
and the remainder. -/
theorem scanQuote_append (s r : List Char) (h : sq ∉ s) :
    scanQuote (s ++ sq :: r) = some (s, r) := by
  induction s with
  | nil => simp [scanQuote]
  | cons c cs ih =>
    have hc : ¬(c = sq) := fun e => h (e ▸ List.mem_cons_self c cs)
    have hcs : sq ∉ cs := fun m => h (List.mem_cons_of_mem _ m)
    simp [scanQuote, hc, ih hcs]

/-- Splitting at the first separator after a separator-free field isolates
that field. -/
theorem splitOnChar_sep (c : Char) (l r : List Char) (h : c ∉ l) :
    splitOnChar c (l ++ c :: r) = l :: splitOnChar c r := by
  induction l with
  | nil => simp [splitOnChar]
  | cons x xs ih =>
    have hx : ¬(x = c) := fun e => h (e ▸ List.mem_cons_self x xs)
    have hxs : c ∉ xs := fun m => h (List.mem_cons_of_mem _ m)
    simp [splitOnChar, hx, ih hxs]

/-- Splitting a newline join of newline-free lines followed by a newline and a
rest yields the lines followed by the split of the rest. -/
theorem splitOnChar_joinLines (ls : List (List Char)) (r : List Char)
    (hne : ls ≠ []) (h : ∀ l ∈ ls, '\n' ∉ l) :
    splitOnChar '\n' (joinLines ls ++ '\n' :: r) = ls ++ splitOnChar '\n' r := by
  induction ls with
  | nil => exact absurd rfl hne
  | cons l ls ih =>
    cases ls with
    | nil =>
      rw [joinLines, splitOnChar_sep '\n' l r (h l (List.mem_cons_self l _))]
      rfl
    | cons l2 ls2 =>
      rw [joinLines, List.append_assoc, List.cons_append,
        splitOnChar_sep '\n' l _ (h l (List.mem_cons_self l _)),
        ih (by simp) (fun q hq => h q (List.mem_cons_of_mem _ hq))]
      rfl

/-- A rendered entry line of a simple entry contains no newline. -/
theorem nl_not_mem_entryLineChars (p : String × String) (h : simpleEntry p) :
    '\n' ∉ entryLineChars p := by
  obtain ⟨⟨_, h2⟩, ⟨_, h4⟩⟩ := h
  intro hmem
  have hsq : ¬('\n' = sq) := by decide
  simp only [entryLineChars, pyReprChars, List.append_assoc, List.cons_append,
    List.nil_append, List.mem_append, List.mem_cons, List.mem_singleton] at hmem
  rcases hmem with h5 | h5 | h5 | h5 | h5 | h5 | h5 | h5 | h5 | h5 | h5 | h5
  repeat
    first
    | exact absurd h5 (by decide)
    | exact absurd h5 hsq
    | exact h2 h5
    | exact h4 h5

/-- Parsing a rendered entry line of a simple entry recovers the entry. -/
theorem parseEntryLine_entryLineChars (p : String × String) (h : simpleEntry p) :
    parseEntryLine (entryLineChars p) = some p := by
  obtain ⟨⟨h1, _⟩, ⟨h3, _⟩⟩ := h
  have e1 := scanQuote_append p.1.data (':' :: ' ' :: (sq :: (p.2.data ++ sq :: [',']))) h1
  have e2 := scanQuote_append p.2.data [','] h3
  simp only [entryLineChars, pyReprChars, List.cons_append, List.nil_append,
    List.append_assoc, List.singleton_append]
  simp [parseEntryLine, parseQuoted, e1, e2]

/-- A rendered entry line starts with a space. -/
theorem entryLineChars_cons (p : String × String) :
    entryLineChars p = ' ' :: (' ' :: ' ' :: ' ' :: pyReprChars p.1 ++ [':', ' '] ++ pyReprChars p.2 ++ [',']) := by
  simp [entryLineChars, List.cons_append, List.append_assoc]

/-- Parsing the rendered entry lines of simple entries followed by the closing
brace line and the final empty line recovers the entries. -/
theorem parseEntries_map (l : VersionMap) (h : ∀ p ∈ l, simpleEntry p) :
    parseEntries (l.map entryLineChars ++ [[rb], []]) = some l := by
  induction l with
  | nil => rfl
  | cons p ps ih =>
    have hbr : ¬(entryLineChars p = [rb]) := by
      rw [entryLineChars_cons]; intro e; injection e with e1 _; exact absurd e1 (by decide)
    have hnil : ¬(entryLineChars p = []) := by
      rw [entryLineChars_cons]; intro e; cases e
    have hline := parseEntryLine_entryLineChars p (h p (List.mem_cons_self p ps))
    have hrest := ih (fun q hq => h q (List.mem_cons_of_mem _ hq))
    rw [List.map_cons, List.cons_append, parseEntries]
    rw [if_neg hbr, if_neg hnil, hline, hrest]

/-- Executing the text that write_versions generates for a mapping of simple
entries recovers exactly that mapping. -/
theorem execGeneratedFile_fileText (m : VersionMap) (h : ∀ p ∈ m, simpleEntry p) :
    execGeneratedFile (String.mk (fileTextChars m)) = some m := by
  cases m with
  | nil => decide
  | cons p ps =>
    show execGeneratedFile (String.mk (headerChars ++
      (joinLines ((p :: ps).map entryLineChars) ++ ('\n' :: rb :: ['\n'])))) = _
    rw [execGeneratedFile]
    show (match stripPre headerChars (headerChars ++
        (joinLines ((p :: ps).map entryLineChars) ++ ('\n' :: rb :: ['\n']))) with
      | none => none
      | some rest => parseEntries (splitOnChar '\n' rest)) = _
    rw [stripPre_append]
    show parseEntries (splitOnChar '\n'
      (joinLines ((p :: ps).map entryLineChars) ++ '\n' :: (rb :: ['\n']))) = _
    rw [splitOnChar_joinLines _ _ (by simp)
      (by intro l hl
          rw [List.mem_map] at hl
          obtain ⟨q, hq, rfl⟩ := hl
          exact nl_not_mem_entryLineChars q (h q hq))]
    show parseEntries ((p :: ps).map entryLineChars ++ [[rb], []]) = some (p :: ps)
    exact parseEntries_map _ h

/-- The chunks concatenate back to the pending chunk followed by the input. -/
theorem chunksGo_flatten (n : Nat) (l : List Nat) :
    ∀ (accRev : List Nat) (k : Nat), (chunksGo n l accRev k).flatten = accRev.reverse ++ l := by
  induction l with
  | nil =>
    intro accRev k
    rw [chunksGo]
    rcases eq_or_ne accRev [] with rfl | hne
    · simp
    · rw [if_neg hne]; simp
  | cons x xs ih =>
    intro accRev k
    rw [chunksGo]
    rcases le_or_lt k 1 with hk | hk
    · rw [if_pos hk]; simp [ih]
    · rw [if_neg (by omega)]; simp [ih]

/-- Chunked reading at a positive chunk size loses no bytes. -/
theorem chunkList_flatten (n : Nat) (l : List Nat) (h : n ≠ 0) :
    (chunkList n l).flatten = l := by
  rw [chunkList, if_neg h, chunksGo_flatten]
  rfl

/-- Members of a list with its last element dropped come from the head or from
the tail with its last element dropped. -/
theorem mem_dropLast_cons {α : Type} (a c : α) (t : List α) (h : a ∈ (c :: t).dropLast) :
    a = c ∨ a ∈ t.dropLast := by
  cases t with
  | nil => cases h
  | cons b bs =>
    rw [List.dropLast_cons₂] at h
    rcases List.mem_cons.1 h with h1 | h1
    · exact Or.inl h1
    · exact Or.inr h1

/-- Every chunk except the final one has exactly the chunk size, given the
invariant that the pending chunk and the remaining capacity fill one chunk. -/
theorem chunksGo_dropLast_length (n : Nat) (l : List Nat) :
    ∀ (accRev : List Nat) (k : Nat), 1 ≤ k → accRev.length + k = n →
      ∀ ch ∈ (chunksGo n l accRev k).dropLast, ch.length = n := by
  induction l with
  | nil =>
    intro accRev k _ _ ch hch
    rw [chunksGo] at hch
    rcases eq_or_ne accRev [] with rfl | hne
    · simp at hch
    · rw [if_neg hne] at hch; simp at hch
  | cons x xs ih =>
    intro accRev k hk hsum ch hch
    rw [chunksGo] at hch
    rcases le_or_lt k 1 with hk1 | hk1
    · rw [if_pos hk1] at hch
      have hn1 : 1 ≤ n := by omega
      rcases mem_dropLast_cons _ _ _ hch with h1 | h1
      · rw [h1]; simp; omega
      · exact ih [] n hn1 (by simp) ch h1
    · rw [if_neg (by omega)] at hch
      exact ih (x :: accRev) (k - 1) (by omega) (by simp; omega) ch hch

/-- All chunks except the final one read by get_hash have the chunk size. -/
theorem chunkList_dropLast_length (n : Nat) (l : List Nat) (h : n ≠ 0) :
    ∀ ch ∈ (chunkList n l).dropLast, ch.length = n := by
  rw [chunkList, if_neg h]
  exact chunksGo_dropLast_length n l [] n (by omega) (by simp)

/-- The left fold of max lands on one of the inputs. -/
theorem foldl_max_mem (xs : List Int) : ∀ x : Int, xs.foldl max x ∈ x :: xs := by
  induction xs with
  | nil => intro x; simp
  | cons y ys ih =>
    intro x
    rw [List.foldl_cons]
    rcases List.mem_cons.1 (ih (max x y)) with h2 | h2
    · rw [h2]
      rcases max_choice x y with h | h <;> rw [h]
      · exact List.mem_cons_self _ _
      · exact List.mem_cons_of_mem _ (List.mem_cons_self _ _)
    · exact List.mem_cons_of_mem _ (List.mem_cons_of_mem _ h2)

/-- The left fold of max bounds every input from above. -/
theorem le_foldl_max (xs : List Int) : ∀ x : Int, ∀ y ∈ x :: xs, y ≤ xs.foldl max x := by
  induction xs with
  | nil =>
    intro x y hy
    rcases List.mem_cons.1 hy with rfl | h
    · exact le_refl _
    · cases h
  | cons z zs ih =>
    intro x y hy
    rw [List.foldl_cons]
    rcases List.mem_cons.1 hy with rfl | h
    · exact le_trans (le_max_left y z) (ih (max y z) _ (List.mem_cons_self _ _))
    · rcases List.mem_cons.1 h with rfl | h2
      · exact le_trans (le_max_right x y) (ih (max x y) _ (List.mem_cons_self _ _))
      · exact ih (max x z) y (List.mem_cons_of_mem _ h2)

/-- C1 counterexample: with cache a maps to 1 and updates b maps to 2, the
file written by write_versions decodes to the updates mapping alone, not to
the merged mapping, refuting the part of the claim that says the persisted
file contains the merged mapping. -/
theorem C1_counterexample :
    execGeneratedFile (write_versions [("a", "1")] [("b", "2")]).2 = some [("b", "2")] ∧
    dictUpdate [("a", "1")] [("b", "2")] = [("a", "1"), ("b", "2")] ∧
    execGeneratedFile (write_versions [("a", "1")] [("b", "2")]).2 ≠
      some (dictUpdate [("a", "1")] [("b", "2")]) :=
  ⟨by decide, by decide, by decide⟩

/-- C1 amended: write_versions merges the updates into a private copy of the
current cached mapping, the previous cache value staying what it was, but the
persisted file contains exactly the entries of the updates argument under
BUNDLE_VERSIONS, not the merged mapping. -/
theorem C1_write_versions (cache updates : VersionMap)
    (h : ∀ p ∈ updates, simpleEntry p) :
    (write_versions cache updates).1 = dictUpdate cache updates ∧
    execGeneratedFile (write_versions cache updates).2 = some updates :=
  ⟨rfl, execGeneratedFile_fileText updates h⟩

/-- C1 witness: the amended statement evaluated on one cache and one update. -/
theorem C1_write_versions_witness :
    (∀ p ∈ [("app.css", "app.abc123.css")], simpleEntry p) ∧
    ((write_versions [("a", "1")] [("app.css", "app.abc123.css")]).1 =
        dictUpdate [("a", "1")] [("app.css", "app.abc123.css")] ∧
      execGeneratedFile (write_versions [("a", "1")] [("app.css", "app.abc123.css")]).2 =
        some [("app.css", "app.abc123.css")]) :=
  ⟨by decide, C1_write_versions [("a", "1")] [("app.css", "app.abc123.css")] (by decide)⟩

/-- C2: the claim states the intended behavior for an output basename without
a dot, but the extensionless branch of the code reads the unassigned variable
versioned_basename: the call raises UnboundLocalError, leaving the mapping
untouched, instead of producing the bare filename, a dot and the token. -/
theorem C2_no_extension_unbound_local :
    update_bundle_version (fun _ => .ok ("abc123")) [] ⟨"app", "bundlefile", []⟩ true =
      ([], .error .unboundLocal) := by decide

/-- C3: writing the mapping of app.css to app.abc123.css and then loading the
persisted file via update_versions yields the same mapping back, whatever the
cache held before the write. -/
theorem C3_round_trip (cache : VersionMap) :
    update_versions (.parsed (execGeneratedFile
      (write_versions cache [("app.css", "app.abc123.css")]).2)) =
      .ok [("app.css", "app.abc123.css")] := by
  show update_versions (.parsed (execGeneratedFile
    (String.mk (fileTextChars [("app.css", "app.abc123.css")])))) = _
  decide

/-- C4: when reading the persisted file fails with an IOError and no cache is
populated yet, get_bundle_versions returns the empty mapping and raises
nothing, whether or not a version file path is configured. -/
theorem C4_missing_file_empty (configured : Bool) :
    get_bundle_versions configured none .absent = .ok ([], some []) := by
  cases configured <;> rfl

/-- C5: a persisted file that executes fine but does not bind BUNDLE_VERSIONS
makes update_versions, and a get_bundle_versions call that loads it, raise
KeyError to the caller instead of treating the file as an empty mapping. -/
theorem C5_missing_key_fatal :
    update_versions (.parsed none) = .error .keyError ∧
    get_bundle_versions true none (.parsed none) = .error .keyError :=
  ⟨rfl, rfl⟩

/-- C6: for a bundle whose output basename contains a dot, the version token
is inserted between name and extension with dot separators, and in particular
static/app.css with token abc123 becomes static/app.abc123.css. -/
theorem C6_versioned_name_insertion :
    (∀ (versions : VersionMap) (b : Bundle) (v : String),
      '.' ∈ (splitPath b.bundle_path).2.data →
      (update_bundle_version (fun _ => .ok v) versions b true).2 =
        .ok (joinPath (splitPath b.bundle_path).1
          ((rpartitionDot (splitPath b.bundle_path).2).1 ++ "." ++ v ++ "." ++
            (rpartitionDot (splitPath b.bundle_path).2).2))) ∧
    (update_bundle_version (fun _ => .ok ("abc123")) [] ⟨"app", "static/app.css", []⟩ true).2 =
      .ok ("static/app.abc123.css") := by
  constructor
  · intro versions b v hdot
    simp only [update_bundle_version]
    rw [if_pos hdot]
    simp
  · decide

/-- C6 witness: the general part of the statement evaluated at a concrete
bundle and token. -/
theorem C6_versioned_name_insertion_witness :
    '.' ∈ (splitPath ("static/app.css")).2.data ∧
    (update_bundle_version (fun _ => .ok ("xy")) [("k", "v")] ⟨"app", "static/app.css", []⟩ true).2 =
      .ok ("static/app.xy.css") :=
  ⟨by decide, by
    have h := C6_versioned_name_insertion.1 [("k", "v")] ⟨"app", "static/app.css", []⟩ ("xy") (by decide)
    exact h.trans (by decide)⟩

/-- C7: the MD5 strategy hashes the content of the merged output file itself,
read in chunks of 16384 bytes that are all full except possibly the last, and
returns the digest of the whole content; on a file containing x the token is
the MD5 hex digest of x. -/
theorem C7_md5_hash_strategy :
    (∀ (fs : String → Option (List Nat)) (b : Bundle) (content : List Nat),
      fs b.bundle_path = some content →
      md5_get_version fs b = .ok (md5hex content)) ∧
    (∀ content : List Nat, ∀ ch ∈ (chunkList (2 ^ 14) content).dropLast, ch.length = 16384) ∧
    md5_get_version (fun p => if p = "static/app.js" then some (strBytes ("x")) else none)
      ⟨"app", "static/app.js", []⟩ = .ok ("9dd4e461268c8034f5c8564e155c67a6") := by
  refine ⟨?_, ?_, ?_⟩
  · intro fs b content hfs
    simp only [md5_get_version, hash_get_version, hfs, get_hash]
    rw [chunkList_flatten _ _ (by norm_num)]
  · intro content ch hch
    exact chunkList_dropLast_length (2 ^ 14) content (by norm_num) ch hch
  · decide

/-- C7 witness: the general part of the statement evaluated at a concrete
filesystem and bundle. -/
theorem C7_md5_hash_strategy_witness :
    (fun p => if p = "static/app.js" then some (strBytes ("x")) else none) ("static/app.js") =
      some (strBytes ("x")) ∧
    md5_get_version (fun p => if p = "static/app.js" then some (strBytes ("x")) else none)
      ⟨"app", "static/app.js", []⟩ = .ok (md5hex (strBytes ("x"))) :=
  ⟨by decide, C7_md5_hash_strategy.1 _ ⟨"app", "static/app.js", []⟩ (strBytes ("x")) (by decide)⟩

/-- C8: with at least one source file, the mtime strategy returns the decimal
string of the maximum truncated modification timestamp over the source files
of the bundle. -/
theorem C8_mtime_max (st_mtime : String → Rat) (b : Bundle) (h : b.paths ≠ []) :
    ∃ m : Int,
      mtime_get_version st_mtime b = .ok (toString m) ∧
      m ∈ b.paths.map (fun f => pyInt (st_mtime f)) ∧
      ∀ x ∈ b.paths.map (fun f => pyInt (st_mtime f)), x ≤ m := by
  rcases hp : b.paths with _ | ⟨p, ps⟩
  · exact absurd hp h
  · refine ⟨(ps.map (fun f => pyInt (st_mtime f))).foldl max (pyInt (st_mtime p)), ?_, ?_, ?_⟩
    · rw [mtime_get_version, hp]
      simp [pyMax]
    · simpa using foldl_max_mem (ps.map (fun f => pyInt (st_mtime f))) (pyInt (st_mtime p))
    · intro x hx
      exact le_foldl_max _ _ x (by simpa using hx)

/-- C8 witness: the statement evaluated at a two-file bundle with one
fractional timestamp. -/
theorem C8_mtime_max_witness :
    (Bundle.mk ("b") ("out.js") ["a.js", "b.js"]).paths ≠ [] ∧
    (∃ m : Int,
      mtime_get_version (fun f => if f = "a.js" then mkRat 3 2 else 5)
        (Bundle.mk ("b") ("out.js") ["a.js", "b.js"]) = .ok (toString m) ∧
      m ∈ (Bundle.mk ("b") ("out.js") ["a.js", "b.js"]).paths.map
          (fun f => pyInt ((fun f => if f = "a.js" then mkRat 3 2 else 5) f)) ∧
      ∀ x ∈ (Bundle.mk ("b") ("out.js") ["a.js", "b.js"]).paths.map
          (fun f => pyInt ((fun f => if f = "a.js" then mkRat 3 2 else 5) f)), x ≤ m) :=
  ⟨by decide, C8_mtime_max (fun f => if f = "a.js" then mkRat 3 2 else 5)
    (Bundle.mk ("b") ("out.js") ["a.js", "b.js"]) (by decide)⟩

/-- C9: update_bundle_version records the new versioned basename in the
mapping before attempting the copy, so when the copy fails because the merged
output file is missing, the call returns IOError with the mapping already
updated. -/
theorem C9_record_before_copy (versions : VersionMap) (b : Bundle) (v : String)
    (hdot : '.' ∈ (splitPath b.bundle_path).2.data) :
    update_bundle_version (fun _ => .ok v) versions b false =
      (dictSet versions b.name
        ((rpartitionDot (splitPath b.bundle_path).2).1 ++ "." ++ v ++ "." ++
          (rpartitionDot (splitPath b.bundle_path).2).2),
        .error .ioError) := by
  simp only [update_bundle_version]
  rw [if_pos hdot]
  simp

/-- C9 witness: the statement evaluated at a concrete bundle whose output file
is missing. -/
theorem C9_record_before_copy_witness :
    '.' ∈ (splitPath ("static/app.css")).2.data ∧
    update_bundle_version (fun _ => .ok ("abc123")) [] ⟨"app", "static/app.css", []⟩ false =
      ([("app", "app.abc123.css")], .error .ioError) :=
  ⟨by decide, by
    have h := C9_record_before_copy [] ⟨"app", "static/app.css", []⟩ ("abc123") (by decide)
    exact h.trans (by decide)⟩

/-- C10: on a bundle with an empty source path list the mtime strategy raises
ValueError, coming from max over an empty sequence, for every stat function,
bundle name and output path. -/
theorem C10_mtime_empty_paths (st_mtime : String → Rat) (name path : String) :
    mtime_get_version st_mtime ⟨name, path, []⟩ = .error .valueError := rfl

end MediaBundler
